import Mathlib

set_option maxRecDepth 8192

namespace Shop

/-- Model of Go unicode.IsSpace restricted to the Latin-1 whitespace characters
(space, tab, newline, vertical tab, form feed, carriage return, NEL, NBSP).
Other Unicode space characters are not modelled. -/
def goIsSpace (c : Char) : Bool :=
  decide (c.toNat = 32 ∨ c.toNat = 9 ∨ c.toNat = 10 ∨ c.toNat = 11 ∨ c.toNat = 12 ∨
    c.toNat = 13 ∨ c.toNat = 0x85 ∨ c.toNat = 0xA0)

/-- Model of Go strings.TrimSpace on a character list: drop whitespace from both ends. -/
def trimSpaceL (l : List Char) : List Char :=
  ((l.dropWhile goIsSpace).reverse.dropWhile goIsSpace).reverse

/-- Model of Go strings.TrimSpace. -/
def trimSpace (s : String) : String := ⟨trimSpaceL s.data⟩

/-- ASCII lower-casing of one character; model of Go strings.ToLower restricted to
ASCII (the keys compared in src/main.go are ASCII). -/
def lowerChar (c : Char) : Char :=
  if 65 ≤ c.toNat ∧ c.toNat ≤ 90 then Char.ofNat (c.toNat + 32) else c

/-- ASCII lower-casing of a character list. -/
def lowerL (l : List Char) : List Char := l.map lowerChar

/-- ASCII lower-casing of a string; model of Go strings.ToLower restricted to ASCII. -/
def lowerStr (s : String) : String := ⟨lowerL s.data⟩

/-- Model of Go strings.EqualFold restricted to ASCII folding. -/
def eqFold (a b : String) : Bool := lowerStr a == lowerStr b

/-- The single-quote character (written by code point to keep sources plain). -/
def squote : Char := Char.ofNat 39

/-- Model of Go html.EscapeString on one character: the five HTML-special
characters are replaced by their entities, every other character is kept. -/
def escChar (c : Char) : List Char :=
  if c = '&' then ['&', 'a', 'm', 'p', ';']
  else if c = squote then ['&', '#', '3', '9', ';']
  else if c = '<' then ['&', 'l', 't', ';']
  else if c = '>' then ['&', 'g', 't', ';']
  else if c = '"' then ['&', '#', '3', '4', ';']
  else [c]

/-- Model of Go html.EscapeString on a character list. -/
def escL : List Char → List Char
  | [] => []
  | c :: rest => escChar c ++ escL rest

/-- Model of Go html.EscapeString (the escaper used by buildHTML in src/main.go). -/
def htmlEscapeString (s : String) : String := ⟨escL s.data⟩

/-- Inverse of the five-entity escaping: decodes the entities produced by
escL and leaves every other character unchanged. -/
def unescL : List Char → List Char
  | [] => []
  | '&' :: 'a' :: 'm' :: 'p' :: ';' :: r => '&' :: unescL r
  | '&' :: '#' :: '3' :: '9' :: ';' :: r => squote :: unescL r
  | '&' :: 'l' :: 't' :: ';' :: r => '<' :: unescL r
  | '&' :: 'g' :: 't' :: ';' :: r => '>' :: unescL r
  | '&' :: '#' :: '3' :: '4' :: ';' :: r => '"' :: unescL r
  | c :: rest => c :: unescL rest

/-- Entity decoder at the string level. -/
def htmlUnescapeString (s : String) : String := ⟨unescL s.data⟩

/-- Number of (possibly overlapping) occurrences of pat in l. -/
def countOccL (pat : List Char) : List Char → Nat
  | [] => if pat.isPrefixOf ([] : List Char) then 1 else 0
  | c :: rest => (if pat.isPrefixOf (c :: rest) then 1 else 0) + countOccL pat rest

/-- Number of occurrences of the pattern string in s. -/
def countOccStr (pat s : String) : Nat := countOccL pat.data s.data

/-- The OG struct of src/main.go. -/
structure OG where
  Title : String
  Description : String
  Image : String
deriving DecidableEq

/-- One HTML attribute (key and value), as delivered by the x/net/html parser. -/
structure Attr where
  Key : String
  Val : String
deriving DecidableEq

/-- A parsed HTML node as walked by parseOGHTML in src/main.go: whether the node
is an element node, its tag name, its attributes and its children.  The
extractor operates on already-parsed trees, so the tree is the model input. -/
inductive Node where
  | mk (isElem : Bool) (data : String) (attrs : List Attr) (children : List Node)

/-- One step of the attribute loop of parseOGHTML: state is (prop, name, cont);
the lower-cased attribute key selects which component is overwritten. -/
def scanAttr (st : String × String × String) (a : Attr) : String × String × String :=
  if lowerStr a.Key = "property" then (lowerStr (trimSpace a.Val), st.2.1, st.2.2)
  else if lowerStr a.Key = "name" then (st.1, lowerStr (trimSpace a.Val), st.2.2)
  else if lowerStr a.Key = "content" then (st.1, st.2.1, trimSpace a.Val)
  else st

/-- The attribute loop of parseOGHTML over a whole attribute list. -/
def scanAttrs (attrs : List Attr) : String × String × String :=
  attrs.foldl scanAttr ("", "", "")

/-- The lookup key of a meta element: property if non-empty, else name
(mirrors key := prop; if key == "" then key = name in src/main.go). -/
def metaKey (attrs : List Attr) : String :=
  if (scanAttrs attrs).1 = "" then (scanAttrs attrs).2.1 else (scanAttrs attrs).1

/-- The stored content of a meta element (trimmed by the attribute loop). -/
def metaContent (attrs : List Attr) : String := (scanAttrs attrs).2.2

/-- The switch on the lookup key in parseOGHTML: only the three og keys
update a field, anything else leaves the accumulator unchanged. -/
def applyKV (og : OG) (key cont : String) : OG :=
  if key = "og:title" then { og with Title := cont }
  else if key = "og:description" then { og with Description := cont }
  else if key = "og:image" then { og with Image := cont }
  else og

/-- The per-node action of parseOGHTML: only element nodes whose tag
case-insensitively equals meta are inspected. -/
def visitNode (og : OG) (isElem : Bool) (data : String) (attrs : List Attr) : OG :=
  if isElem && eqFold data "meta" then applyKV og (metaKey attrs) (metaContent attrs) else og

mutual

/-- The recursive tree walk f of parseOGHTML (depth-first, pre-order). -/
def walk (og : OG) : Node → OG
  | .mk e d a cs => walkList (visitNode og e d a) cs

/-- The child loop of the tree walk of parseOGHTML. -/
def walkList (og : OG) : List Node → OG
  | [] => og
  | c :: cs => walkList (walk og c) cs

end

/-- parseOGHTML after parsing: the walk started on the zero OG value. -/
def extractOG (doc : Node) : OG := walk ⟨"", "", ""⟩ doc

mutual

/-- The (key, content) pairs of all meta elements of a tree, in the same
depth-first pre-order in which the walk of parseOGHTML visits them. -/
def dfsMetas : Node → List (String × String)
  | .mk e d a cs =>
    (if e && eqFold d "meta" then [(metaKey a, metaContent a)] else []) ++ dfsMetasList cs

/-- The meta (key, content) pairs of a forest, in depth-first pre-order. -/
def dfsMetasList : List Node → List (String × String)
  | [] => []
  | c :: cs => dfsMetas c ++ dfsMetasList cs

end

example : trimSpace "  a b\t" = "a b" := by decide

example : htmlEscapeString "<a>" = "&lt;a&gt;" := by decide

example : htmlUnescapeString (htmlEscapeString "a&b\"c") = "a&b\"c" := by decide

example :
    extractOG (.mk true "html" [] [.mk true "meta" [⟨"property", "og:title"⟩, ⟨"content", " T "⟩] []])
      = ⟨"T", "", ""⟩ := by decide

/-- Model of the fragment of a Go net/url URL value used by absolutize in
src/main.go: scheme, host, path, the rootless (Go: Opaque) part, the
omit-host flag, force-query flag, raw query and fragment.  Userinfo, ports
beyond digit validation, and percent-escaping are outside the model. -/
structure GoURL where
  Scheme : String := ""
  Host : String := ""
  Path : String := ""
  Opaq : String := ""
  OmitHost : Bool := false
  ForceQuery : Bool := false
  RawQuery : String := ""
  Fragment : String := ""
deriving DecidableEq

/-- The all-empty URL value, the result of parsing the empty string. -/
def emptyGoURL : GoURL := {}

/-- Model of Go net/url URL.IsAbs: a URL is absolute when it has a scheme. -/
def GoURL.IsAbs (u : GoURL) : Bool := !(u.Scheme == "")

/-- A control byte in the sense of Go net/url stringContainsCTLByte. -/
def isCtl (c : Char) : Bool := decide (c.toNat < 32 ∨ c.toNat = 127)

/-- ASCII letter test. -/
def isAlphaC (c : Char) : Bool := decide ((97 ≤ c.toNat ∧ c.toNat ≤ 122) ∨ (65 ≤ c.toNat ∧ c.toNat ≤ 90))

/-- ASCII digit test. -/
def isDigitC (c : Char) : Bool := decide (48 ≤ c.toNat ∧ c.toNat ≤ 57)

/-- Split a list at the first occurrence of sep: the part before it and,
when sep occurs, the part after it (model of Go strings.Cut). -/
def cutc (sep : Char) : List Char → List Char × Option (List Char)
  | [] => ([], none)
  | c :: rest =>
    if c = sep then ([], some rest)
    else
      let r := cutc sep rest
      (c :: r.1, r.2)

/-- Number of occurrences of one character in a list. -/
def countChar (ch : Char) (l : List Char) : Nat := (l.filter (fun c => c == ch)).length

/-- Model of Go net/url getScheme: strips a leading scheme: when found.
Returns none on the error case (colon with empty scheme); otherwise the
(possibly empty) scheme and the remainder.  The accumulator collects the
scheme candidate in reverse. -/
def getSchemeGo (orig : List Char) (acc : List Char) : List Char → Option (List Char × List Char)
  | [] => some ([], orig)
  | c :: rest =>
    if isAlphaC c then getSchemeGo orig (c :: acc) rest
    else if isDigitC c || c == '+' || c == '-' || c == '.' then
      if acc.isEmpty then some ([], orig) else getSchemeGo orig (c :: acc) rest
    else if c == ':' then
      if acc.isEmpty then none else some (acc.reverse, rest)
    else some ([], orig)

/-- Model of Go net/url getScheme on a whole list. -/
def getSchemeL (l : List Char) : Option (List Char × List Char) := getSchemeGo l [] l

/-- The first slash-separated segment of a list. -/
def firstSegmentL (l : List Char) : List Char := (cutc '/' l).1

/-- Model of the port validation of Go net/url parseHost: whatever follows
the last colon of the host must consist of digits only. -/
def validOptionalPortL (host : List Char) : Bool :=
  if host.contains ':' then (host.reverse.takeWhile (fun c => c != ':')).all isDigitC else true

/-- Authorities handled by the model: no userinfo and no IPv6 brackets
(these are outside the modelled fragment), with a valid optional port. -/
def validHostL (auth : List Char) : Bool :=
  !(auth.contains '@') && !(auth.contains '[') && !(auth.contains ']') && validOptionalPortL auth

/-- Model of Go net/url parse (the part of Parse before the fragment is split
off), following the branch structure of the Go function: scheme detection,
force-query or query split, the rootless (opaque) case, the colon check on
the first segment of a schemeless relative path, the double-slash authority
case, and the rooted-path case with the omit-host flag. -/
def parseNoFrag (l : List Char) : Option GoURL :=
  match getSchemeL l with
  | none => none
  | some (schemeRaw, rest0) =>
    let scheme := lowerL schemeRaw
    let split :=
      if rest0.getLast? == some '?' && countChar '?' rest0 == 1 then
        (rest0.dropLast, true, ([] : List Char))
      else
        match cutc '?' rest0 with
        | (r, some q) => (r, false, q)
        | (r, none) => (r, false, [])
    let rest := split.1
    let fq := split.2.1
    let query := split.2.2
    if rest.head? != some '/' then
      if !scheme.isEmpty then
        some { Scheme := ⟨scheme⟩, Opaq := ⟨rest⟩, ForceQuery := fq, RawQuery := ⟨query⟩ }
      else if (firstSegmentL rest).contains ':' then none
      else some { Path := ⟨rest⟩, ForceQuery := fq, RawQuery := ⟨query⟩ }
    else if rest.head? == some '/' && (rest.drop 1).head? == some '/' then
      let afterSS := rest.drop 2
      let ap :=
        match cutc '/' afterSS with
        | (a, some p) => (a, '/' :: p)
        | (a, none) => (a, ([] : List Char))
      if validHostL ap.1 then
        some { Scheme := ⟨scheme⟩, Host := ⟨ap.1⟩, Path := ⟨ap.2⟩,
               ForceQuery := fq, RawQuery := ⟨query⟩ }
      else none
    else
      some { Scheme := ⟨scheme⟩, Path := ⟨rest⟩, OmitHost := !scheme.isEmpty,
             ForceQuery := fq, RawQuery := ⟨query⟩ }

/-- Model of Go net/url Parse, scoped as documented on GoURL: the string is
rejected (as Go does) when it contains a control byte, and mapped to a model
parse failure when it contains a percent sign, whose escape handling is not
modelled.  The fragment is split off at the first hash sign. -/
def url_Parse (s : String) : Option GoURL :=
  let l := s.data
  if l.any isCtl then none
  else if l.contains '%' then none
  else
    let cut := cutc '#' l
    match parseNoFrag cut.1 with
    | none => none
    | some u =>
      match cut.2 with
      | none => some u
      | some f => some { u with Fragment := ⟨f⟩ }

/-- The prefix of a list up to and including its last slash (empty when the
list has no slash); model of base[:strings.LastIndex(base, slash)+1]. -/
def upToLastSlashIncl (l : List Char) : List Char :=
  (l.reverse.dropWhile (fun c => c != '/')).reverse

/-- Split a list on every slash, keeping empty segments. -/
def splitSlash : List Char → List (List Char)
  | [] => [[]]
  | c :: rest =>
    if c = '/' then [] :: splitSlash rest
    else
      match splitSlash rest with
      | [] => [[c]]
      | s :: ss => (c :: s) :: ss

/-- One step of dot-segment removal: a single dot is dropped, a double dot
pops the last completed segment, anything else is appended. -/
def segStep (stack : List (List Char)) (seg : List Char) : List (List Char) :=
  if seg = ['.'] then stack
  else if seg = ['.', '.'] then stack.dropLast
  else stack ++ [seg]

/-- Model of Go net/url resolvePath: merge the reference path with the base
path (replace the last base segment unless the reference is rooted), then
remove dot segments per RFC 3986 section 5.2.4; the result is rooted.  A
trailing single- or double-dot segment leaves a trailing slash. -/
def resolvePathL (base ref : List Char) : List Char :=
  let full :=
    if ref = [] then base
    else if ref.head? = some '/' then ref
    else upToLastSlashIncl base ++ ref
  if full = [] then []
  else
    let segs0 := splitSlash full
    let segs := match segs0 with
      | [] :: rest => rest
      | s => s
    let stack := segs.foldl segStep []
    let stack :=
      if segs.getLast? = some ['.'] ∨ segs.getLast? = some ['.', '.'] then stack ++ [[]]
      else stack
    '/' :: List.intercalate ['/'] stack

/-- Model of Go net/url URL.ResolveReference for the modelled URL fragment,
following the branch structure of the Go method. -/
def GoURL.resolveReference (u ref : GoURL) : GoURL :=
  let url0 := if ref.Scheme = "" then { ref with Scheme := u.Scheme } else ref
  if ref.Scheme ≠ "" ∨ ref.Host ≠ "" then
    { url0 with Path := ⟨resolvePathL ref.Path.data []⟩ }
  else if ref.Opaq ≠ "" then
    { url0 with Host := "", Path := "" }
  else
    let url1 :=
      if ref.Path = "" ∧ ¬ ref.ForceQuery ∧ ref.RawQuery = "" then
        { url0 with RawQuery := u.RawQuery,
                    Fragment := if ref.Fragment = "" then u.Fragment else ref.Fragment }
      else url0
    { url1 with Host := u.Host, Path := ⟨resolvePathL u.Path.data ref.Path.data⟩ }

/-- The query and fragment suffix written by Go net/url URL.String. -/
def queryFragPart (u : GoURL) : String :=
  (if u.ForceQuery ∨ u.RawQuery ≠ "" then "?" ++ u.RawQuery else "") ++
  (if u.Fragment ≠ "" then "#" ++ u.Fragment else "")

/-- Whether the first slash-separated segment of a path contains a colon. -/
def firstSegHasColon (p : String) : Bool := (firstSegmentL p.data).contains ':'

/-- Model of Go net/url URL.String for the modelled URL fragment, following
the write order of the Go method: scheme, authority (honouring the omit-host
flag), path (rooted when a host is present, colon-guarded when relative),
query and fragment. -/
def GoURL.toString (u : GoURL) : String :=
  let schemePart := if u.Scheme ≠ "" then u.Scheme ++ ":" else ""
  if u.Opaq ≠ "" then schemePart ++ u.Opaq ++ queryFragPart u
  else
    let authPart :=
      if u.Scheme ≠ "" ∨ u.Host ≠ "" then
        if u.OmitHost ∧ u.Host = "" then ""
        else (if u.Host ≠ "" ∨ u.Path ≠ "" then "//" else "") ++ u.Host
      else ""
    let pathPart :=
      if u.Path ≠ "" ∧ u.Path.data.head? ≠ some '/' ∧ u.Host ≠ "" then "/" ++ u.Path
      else u.Path
    let pathPart :=
      if schemePart = "" ∧ authPart = "" ∧ firstSegHasColon u.Path then "./" ++ pathPart
      else pathPart
    schemePart ++ authPart ++ pathPart ++ queryFragPart u

/-- The part of absolutize (src/main.go) after the reference has parsed:
absolute references are returned in string form, protocol-relative
references adopt the base scheme, anything else resolves against the base;
a base parse failure returns the raw reference with an error. -/
def absolutizeParsed (u : GoURL) (raw baseStr : String) : String × Bool :=
  if u.IsAbs then (u.toString, false)
  else
    match url_Parse baseStr with
    | none => (raw, true)
    | some base =>
      if u.Host ≠ "" ∧ u.Scheme = "" then
        (({ u with Scheme := base.Scheme } : GoURL).toString, false)
      else
        ((base.resolveReference u).toString, false)

/-- Model of absolutize in src/main.go: parse the reference, then continue
with the parsed value; the second component models whether a non-nil error
was returned (the caller only assigns the result when the error is nil). -/
def absolutize (raw baseStr : String) : String × Bool :=
  if raw = "" then (raw, false)
  else
    match url_Parse raw with
    | none => (raw, true)
    | some u => absolutizeParsed u raw baseStr

example : url_Parse "https://example.com/a/b" =
    some { Scheme := "https", Host := "example.com", Path := "/a/b" } := by decide

example : absolutize "/img.png" "https://example.com/a/b" = ("https://example.com/img.png", false) := by
  decide

example : absolutize "//cdn.x.com/i.png" "https://example.com/a" = ("https://cdn.x.com/i.png", false) := by
  decide

example : absolutize "https://full.com/i.png" "https://example.com" = ("https://full.com/i.png", false) := by
  decide

example : absolutize "" "zzz" = ("", false) := by decide

example : absolutize "img.png" "https://example.com/a/b" = ("https://example.com/a/img.png", false) := by
  decide

example : url_Parse "\x01" = none := by decide

/-- cleanRoutePath of src/main.go at the character-list level: the empty key
becomes the root, a missing leading slash is added, and one trailing slash is
trimmed (Go strings.TrimSuffix removes at most one copy of the suffix). -/
def addSlash (l : List Char) : List Char :=
  if l.head? = some '/' then l else '/' :: l

/-- Go strings.TrimSuffix with a slash suffix: drop one trailing slash. -/
def trimOneSlash (l : List Char) : List Char :=
  if l.getLast? = some '/' then l.dropLast else l

def cleanL (l : List Char) : List Char :=
  match l with
  | [] => ['/']
  | _ => trimOneSlash (addSlash l)

/-- cleanRoutePath of src/main.go. -/
def cleanRoutePath (p : String) : String := ⟨cleanL p.data⟩

example : cleanRoutePath "" = "/" := by decide

example : cleanRoutePath "abc" = "/abc" := by decide

example : cleanRoutePath "/abc/" = "/abc" := by decide

example : cleanRoutePath "/" = "" := by decide

example : cleanRoutePath "a//" = "/a/" := by decide

/-- The constant template text of buildHTML before the title slot. -/
def seg0 : String := "<!doctype html>\n<html lang=\"ko\">\n<head>\n<meta charset=\"utf-8\">\n<title>"

/-- Template text between the title slot and the description slot. -/
def seg1 : String := "</title>\n<meta name=\"viewport\" content=\"width=device-width, initial-scale=1\">\n<meta name=\"description\" content=\""

/-- Template text between the description slot and the og:title slot. -/
def seg2 : String := "\">\n<meta name=\"robots\" content=\"noindex\">\n<meta property=\"og:type\" content=\"website\">\n<meta property=\"og:title\" content=\""

/-- Template text between the og:title slot and the og:description slot. -/
def seg3 : String := "\">\n<meta property=\"og:description\" content=\""

/-- Template text between the og:description slot and the og:image slot. -/
def seg4 : String := "\">\n<meta property=\"og:image\" content=\""

/-- Template text between the og:image slot and the og:url slot. -/
def seg5 : String := "\">\n<meta property=\"og:url\" content=\""

/-- Template text between the og:url slot and the canonical href slot. -/
def seg6 : String := "\">\n<meta name=\"twitter:card\" content=\"summary_large_image\">\n<link rel=\"canonical\" href=\""

/-- Template text between the canonical href slot and the script slot;
it contains the single fixed script tag of the document. -/
def seg7 : String := "\">\n<script>(function()\x7b window.location.replace(\""

/-- Template text between the script slot and the noscript href slot. -/
def seg8 : String := "\"); \x7d)();</script>\n<style>html,body\x7bbackground:#fff;margin:0;height:100%;display:flex;align-items:center;justify-content:center;font:16px/1.4 -apple-system,BlinkMacSystemFont,Segoe UI,Roboto,Helvetica,Arial,Apple SD Gothic Neo,Noto Sans KR,sans-serif;color:#111\x7d</style>\n</head>\n<body>\n<noscript>자바스크립트가 꺼져 있어요. <a href=\""

/-- Template text after the noscript href slot. -/
def seg9 : String := "\">여기를 눌러 이동</a>하세요.</noscript>\n</body>\n</html>"

/-- buildHTML of src/main.go: escapes title, description, image, the shop URL
(the fixed origin concatenated with the path) and the target URL, then fills
the nine slots of the constant template in the order of the Sprintf call:
title text, description meta, og:title, og:description, og:image, og:url,
canonical href, script string literal, noscript href. -/
def buildHTML (path toURL : String) (og : OG) : String :=
  let title := htmlEscapeString og.Title
  let desc := htmlEscapeString og.Description
  let img := htmlEscapeString og.Image
  let shopURL := htmlEscapeString ("https://shop.unigoods.im" ++ path)
  let toEsc := htmlEscapeString toURL
  seg0 ++ title ++ seg1 ++ desc ++ seg2 ++ title ++ seg3 ++ desc ++ seg4 ++ img ++
    seg5 ++ shopURL ++ seg6 ++ toEsc ++ seg7 ++ toEsc ++ seg8 ++ toEsc ++ seg9

/-- The Config struct of src/main.go; the routes map is modelled as an
association list (Go map iteration order is not observable in the claims). -/
structure Config where
  CNAME : String
  GlobalOG : String
  DefaultRedirect : String
  Routes : List (String × String)
deriving DecidableEq

/-- The defaulting and fallback step of the per-route loop of main
(src/main.go lines 54-67): the global fallback image replaces an empty image,
fixed defaults replace an empty title and description, and a non-empty image
is absolutized against the target URL, keeping the old value on error. -/
def applyImageFallback (cfg : Config) (og : OG) : OG :=
  if og.Image = "" ∧ cfg.GlobalOG ≠ "" then { og with Image := cfg.GlobalOG } else og

/-- The title default of the defaulting step (src/main.go lines 57-59). -/
def applyTitleDefault (og : OG) : OG :=
  if og.Title = "" then { og with Title := "UniGoods" } else og

/-- The description default of the defaulting step (src/main.go lines 60-62). -/
def applyDescDefault (og : OG) : OG :=
  if og.Description = "" then { og with Description := "UniGoods link" } else og

/-- The image absolutization of the defaulting step (src/main.go lines 63-67):
a non-empty image is resolved against the target URL, and the old value is
kept when absolutize reports an error. -/
def applyImageResolve (toURL : String) (og : OG) : OG :=
  if og.Image ≠ "" then
    match absolutize og.Image toURL with
    | (abs, false) => { og with Image := abs }
    | (_, true) => og
  else og

def defaultOG (cfg : Config) (toURL : String) (og : OG) : OG :=
  applyImageResolve toURL (applyDescDefault (applyTitleDefault (applyImageFallback cfg og)))

/-- The final render input for a route, as assembled by main: normalized
path, target URL, defaulted metadata, and the shop URL that buildHTML
synthesizes from the fixed origin and the path. -/
structure ResolvedPage where
  logicalPath : String
  targetURL : String
  title : String
  description : String
  imageURL : String
  canonicalURL : String
deriving DecidableEq

/-- The per-route pipeline of main without I/O: normalize the key, apply the
defaulting step to the fetched metadata, and assemble the render input. -/
def resolvePage (cfg : Config) (p toURL : String) (og : OG) : ResolvedPage :=
  ⟨cleanRoutePath p, toURL, (defaultOG cfg toURL og).Title, (defaultOG cfg toURL og).Description,
   (defaultOG cfg toURL og).Image, "https://shop.unigoods.im" ++ cleanRoutePath p⟩

/-- The output file name of a route page: the route path with its leading
slash stripped, joined with index.html (model of the filepath.Join calls of
main relative to the output directory). -/
def outName (routePath : String) : String :=
  let stripped := if routePath.data.head? = some '/' then ⟨routePath.data.drop 1⟩ else routePath
  if stripped = "" then "index.html" else stripped ++ "/index.html"

/-- The documents written by main, as (file name, text) pairs: one page per
route built from the fetched metadata of that route, and, only when the
default redirect target is non-empty after trimming, the 404 page built by
the same renderer with the fixed Korean defaults and the global fallback
image.  The fetched function models the result of fetchOG per route (the
zero OG value for a failed fetch). -/
def siteOutputs (cfg : Config) (fetched : String → String → OG) : List (String × String) :=
  cfg.Routes.map (fun pr =>
    let routePath := cleanRoutePath pr.1
    let og := defaultOG cfg pr.2 (fetched pr.1 pr.2)
    (outName routePath, buildHTML routePath pr.2 og))
  ++ (if trimSpace cfg.DefaultRedirect ≠ "" then
        [("404.html", buildHTML "/404" cfg.DefaultRedirect ⟨"UniGoods", "유니굿즈 숍으로 이동합니다.", cfg.GlobalOG⟩)]
      else [])

theorem mem_escChar (c c' : Char) (h : c' ∈ escChar c) :
    c' ≠ '<' ∧ c' ≠ '>' ∧ c' ≠ '"' ∧ c' ≠ squote := by
  unfold escChar at h
  split_ifs at h with h1 h2 h3 h4 h5
  · simp only [List.mem_cons, List.not_mem_nil, or_false] at h
    rcases h with h|h|h|h|h <;> subst h <;> exact ⟨by decide, by decide, by decide, by decide⟩
  · simp only [List.mem_cons, List.not_mem_nil, or_false] at h
    rcases h with h|h|h|h|h <;> subst h <;> exact ⟨by decide, by decide, by decide, by decide⟩
  · simp only [List.mem_cons, List.not_mem_nil, or_false] at h
    rcases h with h|h|h|h <;> subst h <;> exact ⟨by decide, by decide, by decide, by decide⟩
  · simp only [List.mem_cons, List.not_mem_nil, or_false] at h
    rcases h with h|h|h|h <;> subst h <;> exact ⟨by decide, by decide, by decide, by decide⟩
  · simp only [List.mem_cons, List.not_mem_nil, or_false] at h
    rcases h with h|h|h|h|h <;> subst h <;> exact ⟨by decide, by decide, by decide, by decide⟩
  · simp only [List.mem_cons, List.not_mem_nil, or_false] at h
    subst h
    exact ⟨h3, h4, h5, h2⟩

theorem mem_escL (l : List Char) (c' : Char) (h : c' ∈ escL l) :
    c' ≠ '<' ∧ c' ≠ '>' ∧ c' ≠ '"' ∧ c' ≠ squote := by
  induction l with
  | nil => simp [escL] at h
  | cons c rest ih =>
    simp only [escL, List.mem_append] at h
    rcases h with h | h
    · exact mem_escChar c c' h
    · exact ih h

theorem unescL_amp (t : List Char) : unescL ('&' :: 'a' :: 'm' :: 'p' :: ';' :: t) = '&' :: unescL t := rfl

theorem unescL_num39 (t : List Char) : unescL ('&' :: '#' :: '3' :: '9' :: ';' :: t) = squote :: unescL t := rfl

theorem unescL_lt (t : List Char) : unescL ('&' :: 'l' :: 't' :: ';' :: t) = '<' :: unescL t := rfl

theorem unescL_gt (t : List Char) : unescL ('&' :: 'g' :: 't' :: ';' :: t) = '>' :: unescL t := rfl

theorem unescL_num34 (t : List Char) : unescL ('&' :: '#' :: '3' :: '4' :: ';' :: t) = '"' :: unescL t := rfl

theorem unescL_other (c : Char) (h : ¬ c = '&') (t : List Char) :
    unescL (c :: t) = c :: unescL t := by
  rw [unescL]
  all_goals intros
  all_goals exact absurd (by assumption : c = '&') h

theorem unescL_escL : ∀ l : List Char, unescL (escL l) = l
  | [] => rfl
  | c :: rest => by
    have ih := unescL_escL rest
    show unescL (escChar c ++ escL rest) = c :: rest
    by_cases h1 : c = '&'
    · subst h1
      calc unescL (escChar '&' ++ escL rest) = '&' :: unescL (escL rest) := unescL_amp _
        _ = '&' :: rest := by rw [ih]
    by_cases h2 : c = squote
    · subst h2
      calc unescL (escChar squote ++ escL rest) = squote :: unescL (escL rest) := unescL_num39 _
        _ = squote :: rest := by rw [ih]
    by_cases h3 : c = '<'
    · subst h3
      calc unescL (escChar '<' ++ escL rest) = '<' :: unescL (escL rest) := unescL_lt _
        _ = '<' :: rest := by rw [ih]
    by_cases h4 : c = '>'
    · subst h4
      calc unescL (escChar '>' ++ escL rest) = '>' :: unescL (escL rest) := unescL_gt _
        _ = '>' :: rest := by rw [ih]
    by_cases h5 : c = '"'
    · subst h5
      calc unescL (escChar '"' ++ escL rest) = '"' :: unescL (escL rest) := unescL_num34 _
        _ = '"' :: rest := by rw [ih]
    have he : escChar c = [c] := by
      unfold escChar
      rw [if_neg h1, if_neg h2, if_neg h3, if_neg h4, if_neg h5]
    rw [he]
    calc unescL (c :: escL rest) = c :: unescL (escL rest) := unescL_other c h1 _
      _ = c :: rest := by rw [ih]

theorem htmlUnescape_htmlEscape (s : String) : htmlUnescapeString (htmlEscapeString s) = s := by
  cases s with
  | mk data =>
    show String.mk (unescL (escL data)) = String.mk data
    rw [unescL_escL]

/-- The concrete document of the escaping test: the renderer applied to a
title carrying a script tag. -/
def xssDoc : String :=
  buildHTML "/p" "https://t.example.com/x"
    ⟨"<script>alert(1)</script>", "d", "https://t.example.com/i.png"⟩

/-- C1: every value interpolated by the renderer is HTML-entity escaped at
every interpolation site.  Part one: the escaper's output never contains a
raw angle bracket or quote character; part two: escaping is lossless (the
five entities decode back to the input, so every special character of the
input appears in entity form); part three: the rendered document is exactly
the constant template with the escaped values at the nine interpolation
sites; part four: for a title containing a script tag, the document carries
the escaped form at both title sites and the only raw script tag is the
fixed redirect script. -/
theorem C1_escaping :
    (∀ s : String, ∀ c ∈ (htmlEscapeString s).data,
        c ≠ '<' ∧ c ≠ '>' ∧ c ≠ '"' ∧ c ≠ squote) ∧
    (∀ s : String, htmlUnescapeString (htmlEscapeString s) = s) ∧
    (∀ path toURL og, buildHTML path toURL og =
        seg0 ++ htmlEscapeString og.Title ++ seg1 ++ htmlEscapeString og.Description ++ seg2 ++
        htmlEscapeString og.Title ++ seg3 ++ htmlEscapeString og.Description ++ seg4 ++
        htmlEscapeString og.Image ++ seg5 ++ htmlEscapeString ("https://shop.unigoods.im" ++ path) ++
        seg6 ++ htmlEscapeString toURL ++ seg7 ++ htmlEscapeString toURL ++ seg8 ++
        htmlEscapeString toURL ++ seg9) ∧
    (countOccStr "<script>" xssDoc = 1 ∧ countOccStr "&lt;script&gt;" xssDoc = 2) := by
  refine ⟨fun s c h => mem_escL s.data c h, htmlUnescape_htmlEscape, fun _ _ _ => rfl, ?_, ?_⟩
  · decide
  · decide

theorem C1_escaping_witness :
    ('&' ∈ (htmlEscapeString "<").data) ∧
    ('&' ≠ '<' ∧ '&' ≠ '>' ∧ '&' ≠ '"' ∧ '&' ≠ squote) :=
  ⟨by decide, C1_escaping.1 "<" '&' (by decide)⟩

/-- The fold step corresponding to one visited meta element. -/
def mfold (acc : OG) (kv : String × String) : OG := applyKV acc kv.1 kv.2

theorem dfs_head_foldl (e : Bool) (d : String) (a : List Attr) (og : OG) :
    ((if e && eqFold d "meta" then [(metaKey a, metaContent a)] else []).foldl mfold og)
      = visitNode og e d a := by
  unfold visitNode
  by_cases hb : (e && eqFold d "meta") = true
  · rw [if_pos hb, if_pos hb]; rfl
  · rw [if_neg hb, if_neg hb]; rfl

mutual

theorem walk_foldl : ∀ (n : Node) (og : OG), walk og n = (dfsMetas n).foldl mfold og
  | .mk e d a cs, og => by
    rw [walk, dfsMetas, List.foldl_append, dfs_head_foldl]
    exact walkList_foldl cs (visitNode og e d a)

theorem walkList_foldl : ∀ (cs : List Node) (og : OG), walkList og cs = (dfsMetasList cs).foldl mfold og
  | [], _ => rfl
  | c :: cs, og => by
    rw [walkList, dfsMetasList, List.foldl_append, ← walk_foldl c og, walkList_foldl cs _]

end

theorem applyKV_Title (og : OG) (k v : String) :
    (applyKV og k v).Title = if k = "og:title" then v else og.Title := by
  unfold applyKV
  by_cases h1 : k = "og:title"
  · rw [if_pos h1, if_pos h1]
  · rw [if_neg h1, if_neg h1]
    by_cases h2 : k = "og:description"
    · rw [if_pos h2]
    · rw [if_neg h2]
      by_cases h3 : k = "og:image"
      · rw [if_pos h3]
      · rw [if_neg h3]

theorem applyKV_Description (og : OG) (k v : String) :
    (applyKV og k v).Description = if k = "og:description" then v else og.Description := by
  unfold applyKV
  by_cases h1 : k = "og:title"
  · rw [if_pos h1, if_neg (by rw [h1]; decide)]
  · rw [if_neg h1]
    by_cases h2 : k = "og:description"
    · rw [if_pos h2, if_pos h2]
    · rw [if_neg h2, if_neg h2]
      by_cases h3 : k = "og:image"
      · rw [if_pos h3]
      · rw [if_neg h3]

theorem applyKV_Image (og : OG) (k v : String) :
    (applyKV og k v).Image = if k = "og:image" then v else og.Image := by
  unfold applyKV
  by_cases h1 : k = "og:title"
  · rw [if_pos h1, if_neg (by rw [h1]; decide)]
  · rw [if_neg h1]
    by_cases h2 : k = "og:description"
    · rw [if_pos h2, if_neg (by rw [h2]; decide)]
    · rw [if_neg h2]
      by_cases h3 : k = "og:image"
      · rw [if_pos h3, if_pos h3]
      · rw [if_neg h3, if_neg h3]

/-- The last-wins selection: fold over the (key, content) pairs, keeping the
content of every pair whose key equals the given key. -/
def keyFold (key : String) (l : List (String × String)) (init : String) : String :=
  l.foldl (fun t kv => if kv.1 = key then kv.2 else t) init

theorem foldl_mfold_Title (l : List (String × String)) (og : OG) :
    ((l.foldl mfold og).Title) = keyFold "og:title" l og.Title := by
  induction l generalizing og with
  | nil => rfl
  | cons kv l ih =>
    rw [List.foldl_cons, ih]
    unfold keyFold
    rw [List.foldl_cons]
    congr 1
    exact applyKV_Title og kv.1 kv.2

theorem foldl_mfold_Description (l : List (String × String)) (og : OG) :
    ((l.foldl mfold og).Description) = keyFold "og:description" l og.Description := by
  induction l generalizing og with
  | nil => rfl
  | cons kv l ih =>
    rw [List.foldl_cons, ih]
    unfold keyFold
    rw [List.foldl_cons]
    congr 1
    exact applyKV_Description og kv.1 kv.2

theorem foldl_mfold_Image (l : List (String × String)) (og : OG) :
    ((l.foldl mfold og).Image) = keyFold "og:image" l og.Image := by
  induction l generalizing og with
  | nil => rfl
  | cons kv l ih =>
    rw [List.foldl_cons, ih]
    unfold keyFold
    rw [List.foldl_cons]
    congr 1
    exact applyKV_Image og kv.1 kv.2

theorem keyFold_getLast (key : String) :
    ∀ (l : List (String × String)) (init : String),
      keyFold key l init =
        (((l.filter (fun kv => kv.1 = key)).getLast?).map Prod.snd).getD init
  | [], _ => rfl
  | kv :: l, init => by
    unfold keyFold
    rw [List.foldl_cons]
    have ih := keyFold_getLast key l (if kv.1 = key then kv.2 else init)
    rw [show (l.foldl (fun t kv => if kv.1 = key then kv.2 else t)
          (if kv.1 = key then kv.2 else init)) = keyFold key l (if kv.1 = key then kv.2 else init) from rfl]
    rw [ih]
    by_cases hk : kv.1 = key
    · rw [List.filter_cons_of_pos (by simpa using hk)]
      cases hf : l.filter (fun kv => kv.1 = key) with
      | nil => rw [if_pos hk]; rfl
      | cons x xs =>
        rw [List.getLast?_cons_cons]
        rcases hg : (x :: xs).getLast? with _ | y
        · rw [List.getLast?_eq_none_iff] at hg
          exact absurd hg (by simp)
        · rfl
    · rw [List.filter_cons_of_neg (by simpa using hk), if_neg hk]

/-- The document of the C5 example: two og:title meta tags with contents A and B. -/
def twoTitleDoc : Node :=
  .mk true "html" []
    [.mk true "head" []
      [.mk true "meta" [⟨"property", "og:title"⟩, ⟨"content", "A"⟩] [],
       .mk true "meta" [⟨"property", "og:title"⟩, ⟨"content", "B"⟩] []]]

/-- C5: the extractor implements a last-wins policy: for every parsed
document, each extracted field is the content of the last meta pair with the
matching key in depth-first document order (or empty when there is none);
in particular two og:title tags A then B yield title B. -/
theorem C5_last_wins :
    (∀ doc : Node,
      (extractOG doc).Title =
        ((((dfsMetas doc).filter (fun kv => kv.1 = "og:title")).getLast?).map Prod.snd).getD "" ∧
      (extractOG doc).Description =
        ((((dfsMetas doc).filter (fun kv => kv.1 = "og:description")).getLast?).map Prod.snd).getD "" ∧
      (extractOG doc).Image =
        ((((dfsMetas doc).filter (fun kv => kv.1 = "og:image")).getLast?).map Prod.snd).getD "") ∧
    extractOG twoTitleDoc = ⟨"B", "", ""⟩ := by
  constructor
  · intro doc
    refine ⟨?_, ?_, ?_⟩
    · rw [extractOG, walk_foldl, foldl_mfold_Title, keyFold_getLast]
    · rw [extractOG, walk_foldl, foldl_mfold_Description, keyFold_getLast]
    · rw [extractOG, walk_foldl, foldl_mfold_Image, keyFold_getLast]
  · decide

/-- The last value of an attribute with the given (already lower-case) key,
lower-cased and trimmed as the attribute loop of parseOGHTML stores the
property and name attributes; empty when the attribute never occurs. -/
def lastLoweredAttr (key : String) (attrs : List Attr) : String :=
  attrs.foldl (fun acc a => if lowerStr a.Key = key then lowerStr (trimSpace a.Val) else acc) ""

/-- The last content attribute value, trimmed (not lower-cased), as the
attribute loop of parseOGHTML stores it; empty when content never occurs. -/
def lastContentAttr (attrs : List Attr) : String :=
  attrs.foldl (fun acc a => if lowerStr a.Key = "content" then trimSpace a.Val else acc) ""

theorem scanAttr_fst (st : String × String × String) (a : Attr) :
    (scanAttr st a).1 = if lowerStr a.Key = "property" then lowerStr (trimSpace a.Val) else st.1 := by
  unfold scanAttr
  by_cases h1 : lowerStr a.Key = "property"
  · rw [if_pos h1, if_pos h1]
  · rw [if_neg h1, if_neg h1]
    by_cases h2 : lowerStr a.Key = "name"
    · rw [if_pos h2]
    · rw [if_neg h2]
      by_cases h3 : lowerStr a.Key = "content"
      · rw [if_pos h3]
      · rw [if_neg h3]

theorem scanAttr_name (st : String × String × String) (a : Attr) :
    (scanAttr st a).2.1 = if lowerStr a.Key = "name" then lowerStr (trimSpace a.Val) else st.2.1 := by
  unfold scanAttr
  by_cases h1 : lowerStr a.Key = "property"
  · rw [if_pos h1, if_neg (by rw [h1]; decide)]
  · rw [if_neg h1]
    by_cases h2 : lowerStr a.Key = "name"
    · rw [if_pos h2, if_pos h2]
    · rw [if_neg h2, if_neg h2]
      by_cases h3 : lowerStr a.Key = "content"
      · rw [if_pos h3]
      · rw [if_neg h3]

theorem scanAttr_cont (st : String × String × String) (a : Attr) :
    (scanAttr st a).2.2 = if lowerStr a.Key = "content" then trimSpace a.Val else st.2.2 := by
  unfold scanAttr
  by_cases h1 : lowerStr a.Key = "property"
  · rw [if_pos h1, if_neg (by rw [h1]; decide)]
  · rw [if_neg h1]
    by_cases h2 : lowerStr a.Key = "name"
    · rw [if_pos h2, if_neg (by rw [h2]; decide)]
    · rw [if_neg h2]
      by_cases h3 : lowerStr a.Key = "content"
      · rw [if_pos h3, if_pos h3]
      · rw [if_neg h3, if_neg h3]

theorem scanAttrs_fst (attrs : List Attr) :
    ∀ st : String × String × String,
      (attrs.foldl scanAttr st).1 =
        attrs.foldl (fun acc a => if lowerStr a.Key = "property" then lowerStr (trimSpace a.Val) else acc) st.1 := by
  induction attrs with
  | nil => intro st; rfl
  | cons a attrs ih =>
    intro st
    rw [List.foldl_cons, List.foldl_cons, ih, scanAttr_fst]

theorem scanAttrs_name (attrs : List Attr) :
    ∀ st : String × String × String,
      (attrs.foldl scanAttr st).2.1 =
        attrs.foldl (fun acc a => if lowerStr a.Key = "name" then lowerStr (trimSpace a.Val) else acc) st.2.1 := by
  induction attrs with
  | nil => intro st; rfl
  | cons a attrs ih =>
    intro st
    rw [List.foldl_cons, List.foldl_cons, ih, scanAttr_name]

theorem scanAttrs_cont (attrs : List Attr) :
    ∀ st : String × String × String,
      (attrs.foldl scanAttr st).2.2 =
        attrs.foldl (fun acc a => if lowerStr a.Key = "content" then trimSpace a.Val else acc) st.2.2 := by
  induction attrs with
  | nil => intro st; rfl
  | cons a attrs ih =>
    intro st
    rw [List.foldl_cons, List.foldl_cons, ih, scanAttr_cont]

theorem metaKey_eq (attrs : List Attr) :
    metaKey attrs =
      if lastLoweredAttr "property" attrs ≠ "" then lastLoweredAttr "property" attrs
      else lastLoweredAttr "name" attrs := by
  unfold metaKey scanAttrs lastLoweredAttr
  rw [scanAttrs_fst attrs ("", "", ""), scanAttrs_name attrs ("", "", "")]
  simp only [show (("", "", "") : String × String × String).1 = "" from rfl,
    show (("", "", "") : String × String × String).2.1 = "" from rfl]
  by_cases h : (attrs.foldl (fun acc a => if lowerStr a.Key = "property" then lowerStr (trimSpace a.Val) else acc) "") = ""
  · rw [if_pos h, if_neg (by simpa using h)]
  · rw [if_neg h, if_pos h]

theorem metaContent_eq (attrs : List Attr) : metaContent attrs = lastContentAttr attrs := by
  unfold metaContent scanAttrs lastContentAttr
  rw [scanAttrs_cont attrs ("", "", "")]

theorem visitNode_meta (og : OG) (attrs : List Attr) :
    visitNode og true "meta" attrs = applyKV og (metaKey attrs) (metaContent attrs) := by
  unfold visitNode
  rw [if_pos (by decide : (true && eqFold "meta" "meta") = true)]

/-- C6: the lookup key of a meta element is the trimmed lower-cased property
attribute when non-empty, else the trimmed lower-cased name attribute
(last occurrence winning within one tag, as the attribute loop overwrites);
only the three recognized og keys set a field, and any other key — such as a
tag with a plain name of title — leaves the metadata unchanged. -/
theorem C6_key_precedence :
    (∀ attrs : List Attr,
      metaKey attrs =
        if lastLoweredAttr "property" attrs ≠ "" then lastLoweredAttr "property" attrs
        else lastLoweredAttr "name" attrs) ∧
    (∀ (attrs : List Attr) (og : OG), metaKey attrs ≠ "og:title" →
      metaKey attrs ≠ "og:description" → metaKey attrs ≠ "og:image" →
      visitNode og true "meta" attrs = og) ∧
    (∀ (attrs : List Attr) (og : OG), metaKey attrs = "og:title" →
      visitNode og true "meta" attrs = { og with Title := metaContent attrs }) ∧
    (∀ (attrs : List Attr) (og : OG), metaKey attrs = "og:description" →
      visitNode og true "meta" attrs = { og with Description := metaContent attrs }) ∧
    (∀ (attrs : List Attr) (og : OG), metaKey attrs = "og:image" →
      visitNode og true "meta" attrs = { og with Image := metaContent attrs }) ∧
    (∀ og : OG, visitNode og true "meta" [⟨"name", "title"⟩, ⟨"content", "x"⟩] = og) := by
  refine ⟨metaKey_eq, ?_, ?_, ?_, ?_, ?_⟩
  · intro attrs og h1 h2 h3
    rw [visitNode_meta]
    unfold applyKV
    rw [if_neg h1, if_neg h2, if_neg h3]
  · intro attrs og h1
    rw [visitNode_meta]
    unfold applyKV
    rw [if_pos h1]
  · intro attrs og h2
    rw [visitNode_meta]
    unfold applyKV
    rw [if_neg (by rw [h2]; decide), if_pos h2]
  · intro attrs og h3
    rw [visitNode_meta]
    unfold applyKV
    rw [if_neg (by rw [h3]; decide), if_neg (by rw [h3]; decide), if_pos h3]
  · intro og
    rw [visitNode_meta]
    unfold applyKV
    rw [if_neg (by decide), if_neg (by decide), if_neg (by decide)]

theorem C6_key_precedence_witness :
    Shop.visitNode ⟨"t0", "d0", "i0"⟩ true "meta"
        [⟨"property", "og:title"⟩, ⟨"content", "Hello"⟩] = ⟨"Hello", "d0", "i0"⟩ := by
  have h := C6_key_precedence.2.2.1 [⟨"property", "og:title"⟩, ⟨"content", "Hello"⟩]
    ⟨"t0", "d0", "i0"⟩ (by decide)
  rw [h]
  decide

theorem head?_dropWhile (p : Char → Bool) (m : List Char) :
    ∀ c, (m.dropWhile p).head? = some c → p c = false := by
  induction m with
  | nil => intro c h; exact absurd h (by simp)
  | cons x m ih =>
    intro c h
    by_cases hx : p x = true
    · rw [List.dropWhile_cons_of_pos hx] at h
      exact ih c h
    · rw [List.dropWhile_cons_of_neg hx] at h
      have : x = c := by simpa using h
      subst this
      simpa using hx

theorem head?_of_front {t m : List Char} (h : t <+: m) {c : Char} (hc : t.head? = some c) :
    m.head? = some c := by
  rcases h with ⟨u, rfl⟩
  cases t with
  | nil => exact absurd hc (by simp)
  | cons x t => simpa using hc

/-- The field has no surrounding whitespace: its first and last characters,
when they exist, are not whitespace. -/
def noEdgeSpace (s : String) : Prop :=
  (∀ c, s.data.head? = some c → goIsSpace c = false) ∧
  (∀ c, s.data.getLast? = some c → goIsSpace c = false)

theorem noEdgeSpace_empty : noEdgeSpace "" :=
  ⟨fun c h => absurd h (by simp [show ("" : String).data = [] from rfl]),
   fun c h => absurd h (by simp [show ("" : String).data = [] from rfl])⟩

theorem trimSpaceL_getLast (l : List Char) (c : Char) (h : (trimSpaceL l).getLast? = some c) :
    goIsSpace c = false := by
  unfold trimSpaceL at h
  rw [List.getLast?_reverse] at h
  exact head?_dropWhile goIsSpace _ c h

theorem trimSpaceL_head (l : List Char) (c : Char) (h : (trimSpaceL l).head? = some c) :
    goIsSpace c = false := by
  unfold trimSpaceL at h
  have hsuf : ((l.dropWhile goIsSpace).reverse.dropWhile goIsSpace)
      <:+ (l.dropWhile goIsSpace).reverse := List.dropWhile_suffix goIsSpace
  have hpre : ((l.dropWhile goIsSpace).reverse.dropWhile goIsSpace).reverse
      <+: (l.dropWhile goIsSpace) := by
    have hrp := List.reverse_prefix.mpr hsuf
    rwa [List.reverse_reverse] at hrp
  exact head?_dropWhile goIsSpace l c (head?_of_front hpre h)

theorem noEdgeSpace_trim (v : String) : noEdgeSpace (trimSpace v) :=
  ⟨fun c h => trimSpaceL_head v.data c h, fun c h => trimSpaceL_getLast v.data c h⟩

/-- All three fields of an OG value are free of surrounding whitespace. -/
def ogTrimmed (og : OG) : Prop :=
  noEdgeSpace og.Title ∧ noEdgeSpace og.Description ∧ noEdgeSpace og.Image

theorem lastContentAttr_cases (attrs : List Attr) :
    ∀ init : String,
      (attrs.foldl (fun acc a => if lowerStr a.Key = "content" then trimSpace a.Val else acc) init) = init ∨
      (∃ v, (attrs.foldl (fun acc a => if lowerStr a.Key = "content" then trimSpace a.Val else acc) init) = trimSpace v) := by
  induction attrs with
  | nil => intro init; exact Or.inl rfl
  | cons a attrs ih =>
    intro init
    rw [List.foldl_cons]
    rcases ih (if lowerStr a.Key = "content" then trimSpace a.Val else init) with h | h
    · rw [h]
      by_cases hc : lowerStr a.Key = "content"
      · rw [if_pos hc]; exact Or.inr ⟨a.Val, rfl⟩
      · rw [if_neg hc]; exact Or.inl rfl
    · exact Or.inr h

theorem metaContent_trimmed (attrs : List Attr) : noEdgeSpace (metaContent attrs) := by
  rw [metaContent_eq]
  unfold lastContentAttr
  rcases lastContentAttr_cases attrs "" with h | ⟨v, h⟩
  · rw [h]; exact noEdgeSpace_empty
  · rw [h]; exact noEdgeSpace_trim v

theorem applyKV_trimmed (og : OG) (k cont : String) (h : ogTrimmed og)
    (hc : noEdgeSpace cont) : ogTrimmed (applyKV og k cont) := by
  unfold applyKV
  by_cases h1 : k = "og:title"
  · rw [if_pos h1]; exact ⟨hc, h.2.1, h.2.2⟩
  rw [if_neg h1]
  by_cases h2 : k = "og:description"
  · rw [if_pos h2]; exact ⟨h.1, hc, h.2.2⟩
  rw [if_neg h2]
  by_cases h3 : k = "og:image"
  · rw [if_pos h3]; exact ⟨h.1, h.2.1, hc⟩
  rw [if_neg h3]; exact h

theorem visitNode_trimmed (og : OG) (e : Bool) (d : String) (a : List Attr)
    (h : ogTrimmed og) : ogTrimmed (visitNode og e d a) := by
  unfold visitNode
  by_cases hb : (e && eqFold d "meta") = true
  · rw [if_pos hb]; exact applyKV_trimmed og _ _ h (metaContent_trimmed a)
  · rw [if_neg hb]; exact h

mutual

theorem walk_trimmed : ∀ (n : Node) (og : OG), ogTrimmed og → ogTrimmed (walk og n)
  | .mk e d a cs, og, h => by
    rw [walk]
    exact walkList_trimmed cs (visitNode og e d a) (visitNode_trimmed og e d a h)

theorem walkList_trimmed : ∀ (cs : List Node) (og : OG), ogTrimmed og → ogTrimmed (walkList og cs)
  | [], _, h => h
  | c :: cs, og, h => by
    rw [walkList]
    exact walkList_trimmed cs (walk og c) (walk_trimmed c og h)

end

/-- A document whose only matching meta tag has whitespace-only content. -/
def wsTitleDoc : Node :=
  .mk true "html" [] [.mk true "meta" [⟨"property", "og:title"⟩, ⟨"content", "   "⟩] []]

/-- The same document with the matching meta tag removed. -/
def noTitleDoc : Node := .mk true "html" [] []

/-- An empty configuration for the C10 example. -/
def cfgEmpty : Config := ⟨"", "", "", []⟩

/-- C10: the extractor stores each content value trimmed, so no extracted
field carries surrounding whitespace; a whitespace-only content trims to the
empty string, which is indistinguishable from an absent tag and is therefore
replaced by the defaulting step. -/
theorem C10_content_trimmed :
    (∀ doc : Node, ogTrimmed (extractOG doc)) ∧
    (∀ v : String, (∀ c ∈ v.data, goIsSpace c = true) → trimSpace v = "") ∧
    (extractOG wsTitleDoc = extractOG noTitleDoc ∧
     (defaultOG cfgEmpty "https://t.example" (extractOG wsTitleDoc)).Title = "UniGoods") := by
  refine ⟨?_, ?_, by decide, by decide⟩
  · intro doc
    exact walk_trimmed doc ⟨"", "", ""⟩ ⟨noEdgeSpace_empty, noEdgeSpace_empty, noEdgeSpace_empty⟩
  · intro v h
    show String.mk (trimSpaceL v.data) = ""
    unfold trimSpaceL
    rw [List.dropWhile_eq_nil_iff.mpr h]
    rfl

theorem C10_content_trimmed_witness : trimSpace "  " = "" :=
  C10_content_trimmed.2.1 "  " (by decide)

theorem str_eq_of_data (s t : String) (h : s.data = t.data) : s = t := by
  cases s
  cases t
  exact congrArg String.mk (by simpa using h)

/-- Whether the string ends in two slashes (Go TrimSuffix removes only one,
so such keys keep a trailing slash after normalization). -/
def endsTwoSlash (p : String) : Bool :=
  match p.data.reverse with
  | '/' :: '/' :: _ => true
  | _ => false

theorem endsTwo_of_decomp (p : String) (t : List Char) (ht : p.data = t ++ ['/', '/']) :
    endsTwoSlash p = true := by
  unfold endsTwoSlash
  rw [ht, List.reverse_append]
  rfl

theorem getLast?_decomp (l : List Char) : ∀ a : Char, l.getLast? = some a → ∃ t, l = t ++ [a] := by
  induction l with
  | nil => intro a h; exact absurd h (by simp)
  | cons x xs ih =>
    intro a h
    cases xs with
    | nil =>
      have hxa : x = a := by simpa using h
      exact ⟨[], by simp [hxa]⟩
    | cons y ys =>
      rw [List.getLast?_cons_cons] at h
      rcases ih a h with ⟨t, ht⟩
      exact ⟨x :: t, by rw [List.cons_append, ← ht]⟩

theorem addSlash_head (l : List Char) : (addSlash l).head? = some '/' := by
  unfold addSlash
  by_cases h : l.head? = some '/'
  · rw [if_pos h]; exact h
  · rw [if_neg h]; rfl

theorem C3_counterexample :
    cleanRoutePath "/" = "" ∧ (cleanRoutePath "/").data.head? ≠ some '/' ∧
    cleanRoutePath "a//" = "/a/" ∧ (cleanRoutePath "a//").data.getLast? = some '/' ∧
    cleanRoutePath "a//" ≠ "/" := by
  refine ⟨by decide, by decide, by decide, by decide, by decide⟩

/-- C3 (amended): for every raw route key other than the bare slash (which
normalizes to the empty string) and not ending in a double slash (after
which one trailing slash survives trimming), the normalized path begins with
a slash and does not end with one. -/
theorem C3_amended (p : String) (h1 : p ≠ "") (h2 : p ≠ "/") (h3 : endsTwoSlash p = false) :
    (cleanRoutePath p).data.head? = some '/' ∧ (cleanRoutePath p).data.getLast? ≠ some '/' := by
  have hd1 : p.data ≠ [] := fun h => h1 (str_eq_of_data p "" h)
  have hd2 : p.data ≠ ['/'] := fun h => h2 (str_eq_of_data p "/" h)
  have hne : ∀ t, p.data ≠ t ++ ['/', '/'] := by
    intro t ht
    rw [endsTwo_of_decomp p t ht] at h3
    exact Bool.noConfusion h3
  show (cleanL p.data).head? = some '/' ∧ (cleanL p.data).getLast? ≠ some '/'
  obtain ⟨c, rest, hl⟩ : ∃ c rest, p.data = c :: rest := by
    cases hpd : p.data with
    | nil => exact absurd hpd hd1
    | cons c rest => exact ⟨c, rest, rfl⟩
  rw [hl] at hd2 ⊢
  have hne2 : ∀ t, (c :: rest : List Char) ≠ t ++ ['/', '/'] := fun t => hl ▸ hne t
  have hstep : cleanL (c :: rest) = trimOneSlash (addSlash (c :: rest)) := rfl
  rw [hstep]
  have hmhead : (addSlash (c :: rest)).head? = some '/' := addSlash_head _
  unfold trimOneSlash
  by_cases hLast : (addSlash (c :: rest)).getLast? = some '/'
  · rw [if_pos hLast]
    rcases getLast?_decomp _ '/' hLast with ⟨t, ht⟩
    rw [ht, List.dropLast_concat]
    have htne : t ≠ [] := by
      intro h0
      subst h0
      rw [List.nil_append] at ht
      unfold addSlash at ht
      by_cases hc : (c :: rest).head? = some '/'
      · rw [if_pos hc] at ht
        exact hd2 ht
      · rw [if_neg hc] at ht
        exact absurd (List.cons.inj ht).2 (List.cons_ne_nil c rest)
    constructor
    · cases t with
      | nil => exact absurd rfl htne
      | cons x t2 =>
        have : (addSlash (c :: rest)).head? = some x := by rw [ht]; rfl
        rw [this] at hmhead
        have : x = '/' := by simpa using hmhead
        rw [this]
        rfl
    · intro hbad
      rcases getLast?_decomp t '/' hbad with ⟨t2, ht2⟩
      have hm2 : addSlash (c :: rest) = t2 ++ ['/', '/'] := by
        rw [ht, ht2, List.append_assoc]
        rfl
      unfold addSlash at hm2
      by_cases hc : (c :: rest).head? = some '/'
      · rw [if_pos hc] at hm2
        exact hne2 t2 hm2
      · rw [if_neg hc] at hm2
        cases t2 with
        | nil =>
          rw [List.nil_append] at hm2
          have hcr : (c :: rest : List Char) = ['/'] := (List.cons.inj hm2).2
          have : (c :: rest).head? = some '/' := by rw [hcr]; rfl
          exact hc this
        | cons x t3 =>
          have hinj := List.cons.inj hm2
          exact hne2 t3 hinj.2
  · rw [if_neg hLast]
    exact ⟨hmhead, hLast⟩

theorem C3_amended_witness :
    (cleanRoutePath "/a").data.head? = some '/' ∧ (cleanRoutePath "/a").data.getLast? ≠ some '/' :=
  C3_amended "/a" (by decide) (by decide) (by decide)

theorem url_Parse_empty : url_Parse "" = some emptyGoURL := by decide

theorem absolutize_some (raw baseStr : String) (u : GoURL) (hr : raw ≠ "")
    (hp : url_Parse raw = some u) : absolutize raw baseStr = absolutizeParsed u raw baseStr := by
  unfold absolutize
  rw [if_neg hr, hp]

theorem isAbs_of_scheme (u : GoURL) (h : u.Scheme ≠ "") : u.IsAbs = true := by
  unfold GoURL.IsAbs
  rw [beq_eq_false_iff_ne.mpr h]
  rfl

theorem isAbs_false_of_no_scheme (u : GoURL) (h : u.Scheme = "") : u.IsAbs = false := by
  unfold GoURL.IsAbs
  rw [h]
  rfl

theorem absolutizeParsed_abs (u : GoURL) (raw baseStr : String) (h : u.IsAbs = true) :
    absolutizeParsed u raw baseStr = (u.toString, false) := by
  unfold absolutizeParsed
  rw [h]
  rfl

theorem absolutizeParsed_baseFail (u : GoURL) (raw baseStr : String) (h : u.IsAbs = false)
    (hb : url_Parse baseStr = none) : absolutizeParsed u raw baseStr = (raw, true) := by
  unfold absolutizeParsed
  rw [h, hb]
  rfl

theorem absolutizeParsed_protoRel (u : GoURL) (raw baseStr : String) (base : GoURL)
    (h : u.IsAbs = false) (hb : url_Parse baseStr = some base) (hh : u.Host ≠ "")
    (hs : u.Scheme = "") :
    absolutizeParsed u raw baseStr = (({ u with Scheme := base.Scheme } : GoURL).toString, false) := by
  unfold absolutizeParsed
  rw [h, hb]
  show (if u.Host ≠ "" ∧ u.Scheme = "" then _ else _) = _
  rw [if_pos ⟨hh, hs⟩]

theorem absolutizeParsed_resolve (u : GoURL) (raw baseStr : String) (base : GoURL)
    (h : u.IsAbs = false) (hb : url_Parse baseStr = some base) (hh : u.Host = "") :
    absolutizeParsed u raw baseStr = ((base.resolveReference u).toString, false) := by
  unfold absolutizeParsed
  rw [h, hb]
  show (if u.Host ≠ "" ∧ u.Scheme = "" then _ else _) = _
  rw [if_neg (fun hand => hand.1 hh)]

theorem parse_ne_empty_of_scheme (raw : String) (u : GoURL) (hp : url_Parse raw = some u)
    (h : u.Scheme ≠ "" ∨ u.Host ≠ "") : raw ≠ "" := by
  intro h0
  subst h0
  rw [url_Parse_empty] at hp
  have : emptyGoURL = u := by injection hp
  rcases h with h | h
  · exact h (by rw [← this]; rfl)
  · exact h (by rw [← this]; rfl)

/-- C7: the resolver returns the empty string for an empty reference; an
absolute reference (scheme and host) is returned in its (normalized) string
form; a protocol-relative reference (host, no scheme) adopts the base
scheme; any other parsed reference is resolved against the parsed base by
relative resolution; and the three concrete round-trip examples hold. -/
theorem C7_resolver :
    (∀ base : String, absolutize "" base = ("", false)) ∧
    (∀ (raw base : String) (u : GoURL), url_Parse raw = some u → u.Scheme ≠ "" → u.Host ≠ "" →
      absolutize raw base = (u.toString, false)) ∧
    (∀ (raw base : String) (u bu : GoURL), url_Parse raw = some u → u.Scheme = "" → u.Host ≠ "" →
      url_Parse base = some bu →
      absolutize raw base = (({ u with Scheme := bu.Scheme } : GoURL).toString, false)) ∧
    (∀ (raw base : String) (u bu : GoURL), raw ≠ "" → url_Parse raw = some u → u.Scheme = "" →
      u.Host = "" → url_Parse base = some bu →
      absolutize raw base = ((bu.resolveReference u).toString, false)) ∧
    (absolutize "/img.png" "https://example.com/a/b" = ("https://example.com/img.png", false) ∧
     absolutize "//cdn.x.com/i.png" "https://example.com/a" = ("https://cdn.x.com/i.png", false) ∧
     absolutize "https://full.com/i.png" "https://example.com" = ("https://full.com/i.png", false) ∧
     absolutize "" "zzz" = ("", false)) := by
  refine ⟨?_, ?_, ?_, ?_, by decide, by decide, by decide, by decide⟩
  · intro base
    unfold absolutize
    rw [if_pos rfl]
  · intro raw base u hp hs hh
    rw [absolutize_some raw base u (parse_ne_empty_of_scheme raw u hp (Or.inl hs)) hp]
    exact absolutizeParsed_abs u raw base (isAbs_of_scheme u hs)
  · intro raw base u bu hp hs hh hbp
    rw [absolutize_some raw base u (parse_ne_empty_of_scheme raw u hp (Or.inr hh)) hp]
    exact absolutizeParsed_protoRel u raw base bu (isAbs_false_of_no_scheme u hs) hbp hh hs
  · intro raw base u bu hr hp hs hh hbp
    rw [absolutize_some raw base u hr hp]
    exact absolutizeParsed_resolve u raw base bu (isAbs_false_of_no_scheme u hs) hbp hh

theorem C7_resolver_witness :
    url_Parse "https://full.com/i.png" =
      some { Scheme := "https", Host := "full.com", Path := "/i.png" } ∧
    absolutize "https://full.com/i.png" "zzz" =
      (({ Scheme := "https", Host := "full.com", Path := "/i.png" } : GoURL).toString, false) :=
  ⟨by decide,
   C7_resolver.2.1 "https://full.com/i.png" "zzz"
     { Scheme := "https", Host := "full.com", Path := "/i.png" }
     (by decide) (by decide) (by decide)⟩

theorem C8_counterexample :
    url_Parse "\x00" = none ∧
    absolutize "HTTPS://x/a" "\x00" = ("https://x/a", false) ∧
    ("https://x/a" : String) ≠ "HTTPS://x/a" := ⟨by decide, by decide, by decide⟩

/-- C8 (amended): the resolver never raises; when the reference fails to
parse it returns the reference unchanged with an error, and likewise when a
non-empty, non-absolute reference parses but the base does not; however,
when the reference is absolute the base is never parsed, so an unparseable
base can still yield a normalized (changed) reference string.  On a
resolution error the defaulting step keeps the pre-resolution image value
as-is. -/
theorem C8_amended :
    (∀ raw base : String, url_Parse raw = none → absolutize raw base = (raw, true)) ∧
    (∀ (raw base : String) (u : GoURL), raw ≠ "" → url_Parse raw = some u → u.IsAbs = false →
      url_Parse base = none → absolutize raw base = (raw, true)) ∧
    (∀ (cfg : Config) (toURL : String) (og : OG),
      (absolutize (applyDescDefault (applyTitleDefault (applyImageFallback cfg og))).Image toURL).2 = true →
      (defaultOG cfg toURL og).Image =
        (applyDescDefault (applyTitleDefault (applyImageFallback cfg og))).Image) := by
  refine ⟨?_, ?_, ?_⟩
  · intro raw base h
    by_cases hr : raw = ""
    · subst hr
      rw [url_Parse_empty] at h
      exact Option.noConfusion h
    · unfold absolutize
      rw [if_neg hr, h]
  · intro raw base u hr hp habs hbp
    rw [absolutize_some raw base u hr hp]
    exact absolutizeParsed_baseFail u raw base habs hbp
  · intro cfg toURL og h
    unfold defaultOG applyImageResolve
    cases hres : absolutize (applyDescDefault (applyTitleDefault (applyImageFallback cfg og))).Image toURL with
    | mk s b =>
      rw [hres] at h
      have hb : b = true := h
      subst hb
      by_cases hni : (applyDescDefault (applyTitleDefault (applyImageFallback cfg og))).Image ≠ ""
      · rw [if_pos hni]
      · rw [if_neg hni]

theorem C8_amended_witness : absolutize "\x01" "b" = ("\x01", true) :=
  C8_amended.1 "\x01" "b" (by decide)

theorem applyImageFallback_Title (cfg : Config) (og : OG) :
    (applyImageFallback cfg og).Title = og.Title := by
  unfold applyImageFallback
  by_cases h : og.Image = "" ∧ cfg.GlobalOG ≠ ""
  · rw [if_pos h]
  · rw [if_neg h]

theorem applyImageFallback_Description (cfg : Config) (og : OG) :
    (applyImageFallback cfg og).Description = og.Description := by
  unfold applyImageFallback
  by_cases h : og.Image = "" ∧ cfg.GlobalOG ≠ ""
  · rw [if_pos h]
  · rw [if_neg h]

theorem applyTitleDefault_Title_ne (og : OG) : (applyTitleDefault og).Title ≠ "" := by
  unfold applyTitleDefault
  by_cases h : og.Title = ""
  · rw [if_pos h]
    exact (by decide : ("UniGoods" : String) ≠ "")
  · rw [if_neg h]
    exact h

theorem applyTitleDefault_Description (og : OG) :
    (applyTitleDefault og).Description = og.Description := by
  unfold applyTitleDefault
  by_cases h : og.Title = ""
  · rw [if_pos h]
  · rw [if_neg h]

theorem applyTitleDefault_Image (og : OG) : (applyTitleDefault og).Image = og.Image := by
  unfold applyTitleDefault
  by_cases h : og.Title = ""
  · rw [if_pos h]
  · rw [if_neg h]

theorem applyDescDefault_Title (og : OG) : (applyDescDefault og).Title = og.Title := by
  unfold applyDescDefault
  by_cases h : og.Description = ""
  · rw [if_pos h]
  · rw [if_neg h]

theorem applyDescDefault_Description_ne (og : OG) : (applyDescDefault og).Description ≠ "" := by
  unfold applyDescDefault
  by_cases h : og.Description = ""
  · rw [if_pos h]
    exact (by decide : ("UniGoods link" : String) ≠ "")
  · rw [if_neg h]
    exact h

theorem applyDescDefault_Image (og : OG) : (applyDescDefault og).Image = og.Image := by
  unfold applyDescDefault
  by_cases h : og.Description = ""
  · rw [if_pos h]
  · rw [if_neg h]

theorem applyImageResolve_Title (toURL : String) (og : OG) :
    (applyImageResolve toURL og).Title = og.Title := by
  unfold applyImageResolve
  by_cases h : og.Image ≠ ""
  · rw [if_pos h]
    cases hres : absolutize og.Image toURL with
    | mk s b => cases b <;> rfl
  · rw [if_neg h]

theorem applyImageResolve_Description (toURL : String) (og : OG) :
    (applyImageResolve toURL og).Description = og.Description := by
  unfold applyImageResolve
  by_cases h : og.Image ≠ ""
  · rw [if_pos h]
    cases hres : absolutize og.Image toURL with
    | mk s b => cases b <;> rfl
  · rw [if_neg h]

theorem addSlash_eq_slash (l : List Char) (h : addSlash l = ['/']) : l = ['/'] ∨ l = [] := by
  unfold addSlash at h
  by_cases hc : l.head? = some '/'
  · rw [if_pos hc] at h
    exact Or.inl h
  · rw [if_neg hc] at h
    exact Or.inr (List.cons.inj h).2

theorem cleanL_ne_nil (l : List Char) (hne : l ≠ ['/']) : cleanL l ≠ [] := by
  cases l with
  | nil =>
    intro h
    exact List.noConfusion h
  | cons c rest =>
    show trimOneSlash (addSlash (c :: rest)) ≠ []
    unfold trimOneSlash
    by_cases hLast : (addSlash (c :: rest)).getLast? = some '/'
    · rw [if_pos hLast]
      rcases getLast?_decomp _ '/' hLast with ⟨t, ht⟩
      rw [ht, List.dropLast_concat]
      intro h0
      subst h0
      rw [List.nil_append] at ht
      rcases addSlash_eq_slash _ ht with h | h
      · exact hne h
      · exact List.noConfusion h
    · rw [if_neg hLast]
      intro h0
      unfold addSlash at h0
      by_cases hc : (c :: rest).head? = some '/'
      · rw [if_pos hc] at h0
        exact List.noConfusion h0
      · rw [if_neg hc] at h0
        exact List.noConfusion h0

theorem cleanRoutePath_ne_empty (p : String) (h : p ≠ "/") : cleanRoutePath p ≠ "" := by
  intro h0
  exact cleanL_ne_nil p.data (fun hd => h (str_eq_of_data p "/" hd)) (congrArg String.data h0)

theorem C2_counterexample :
    (resolvePage ⟨"", "", "", []⟩ "/x" "https://t.example" ⟨"", "", ""⟩).imageURL = "" := by
  decide

/-- C2 (amended): after the defaulting step the title, description and
canonical URL are always non-empty, the logical path is non-empty unless the
raw key is the bare slash, and the target URL is passed through unchanged
(non-empty whenever configured non-empty); the image URL alone may be empty,
namely when extraction yields no image and no global fallback is
configured. -/
theorem C2_amended (cfg : Config) (p toURL : String) (og : OG) :
    (resolvePage cfg p toURL og).title ≠ "" ∧
    (resolvePage cfg p toURL og).description ≠ "" ∧
    (resolvePage cfg p toURL og).canonicalURL ≠ "" ∧
    (p ≠ "/" → (resolvePage cfg p toURL og).logicalPath ≠ "") ∧
    (toURL ≠ "" → (resolvePage cfg p toURL og).targetURL ≠ "") := by
  refine ⟨?_, ?_, ?_, ?_, fun h => h⟩
  · show (defaultOG cfg toURL og).Title ≠ ""
    unfold defaultOG
    rw [applyImageResolve_Title, applyDescDefault_Title]
    exact applyTitleDefault_Title_ne _
  · show (defaultOG cfg toURL og).Description ≠ ""
    unfold defaultOG
    rw [applyImageResolve_Description]
    exact applyDescDefault_Description_ne _
  · show ("https://shop.unigoods.im" ++ cleanRoutePath p) ≠ ""
    intro h0
    have hd := congrArg String.data h0
    rw [show ("https://shop.unigoods.im" ++ cleanRoutePath p).data
        = ("https://shop.unigoods.im" : String).data ++ (cleanRoutePath p).data from rfl] at hd
    rcases List.append_eq_nil.mp hd with ⟨h1, _⟩
    exact absurd h1 (by decide)
  · intro hp
    exact cleanRoutePath_ne_empty p hp

theorem C2_amended_witness :
    (resolvePage ⟨"", "", "", []⟩ "/x" "https://t.example" ⟨"", "", ""⟩).title ≠ "" ∧
    (resolvePage ⟨"", "", "", []⟩ "/x" "https://t.example" ⟨"", "", ""⟩).description ≠ "" ∧
    (resolvePage ⟨"", "", "", []⟩ "/x" "https://t.example" ⟨"", "", ""⟩).canonicalURL ≠ "" ∧
    (resolvePage ⟨"", "", "", []⟩ "/x" "https://t.example" ⟨"", "", ""⟩).logicalPath ≠ "" ∧
    (resolvePage ⟨"", "", "", []⟩ "/x" "https://t.example" ⟨"", "", ""⟩).targetURL ≠ "" := by
  have h := C2_amended ⟨"", "", "", []⟩ "/x" "https://t.example" ⟨"", "", ""⟩
  exact ⟨h.1, h.2.1, h.2.2.1, h.2.2.2.1 (by decide), h.2.2.2.2 (by decide)⟩

theorem C4_counterexample :
    (defaultOG ⟨"", "/logo.png", "", []⟩ "https://example.com/a/b" ⟨"", "", ""⟩).Image
        = "https://example.com/logo.png" ∧
    ("https://example.com/logo.png" : String) ≠ "/logo.png" := ⟨by decide, by decide⟩

/-- C4 (amended): when the extracted image is empty and a global fallback is
configured, the fallback is assigned verbatim at the fallback step but is
then passed through URL resolution against the route target like any other
image: the rendered image is the resolved fallback when resolution
succeeds, and the verbatim fallback only when resolution fails. -/
theorem C4_amended (cfg : Config) (toURL : String) (og : OG) (h1 : og.Image = "")
    (h2 : cfg.GlobalOG ≠ "") :
    (defaultOG cfg toURL og).Image =
      (if (absolutize cfg.GlobalOG toURL).2 then cfg.GlobalOG
       else (absolutize cfg.GlobalOG toURL).1) := by
  have hImg : (applyDescDefault (applyTitleDefault (applyImageFallback cfg og))).Image
      = cfg.GlobalOG := by
    rw [applyDescDefault_Image, applyTitleDefault_Image]
    unfold applyImageFallback
    rw [if_pos ⟨h1, h2⟩]
  unfold defaultOG applyImageResolve
  rw [hImg]
  rw [if_pos h2]
  cases hres : absolutize cfg.GlobalOG toURL with
  | mk s b =>
    cases b with
    | false => rfl
    | true => exact hImg

theorem C4_amended_witness :
    (defaultOG ⟨"", "/logo.png", "", []⟩ "https://example.com/a/b" ⟨"", "", ""⟩).Image =
      (if (absolutize (Config.GlobalOG ⟨"", "/logo.png", "", []⟩) "https://example.com/a/b").2
       then Config.GlobalOG ⟨"", "/logo.png", "", []⟩
       else (absolutize (Config.GlobalOG ⟨"", "/logo.png", "", []⟩) "https://example.com/a/b").1) :=
  C4_amended ⟨"", "/logo.png", "", []⟩ "https://example.com/a/b" ⟨"", "", ""⟩ rfl (by decide)

theorem string_data_append (a b : String) : (a ++ b).data = a.data ++ b.data := rfl

theorem outName_ne_404 (s : String) : outName s ≠ "404.html" := by
  unfold outName
  by_cases h : (if s.data.head? = some '/' then (⟨s.data.drop 1⟩ : String) else s) = ""
  · rw [if_pos h]
    decide
  · rw [if_neg h]
    intro h0
    have hlen : ((if s.data.head? = some '/' then (⟨s.data.drop 1⟩ : String) else s)
        ++ "/index.html").data.length = ("404.html" : String).data.length := by rw [h0]
    rw [string_data_append, List.length_append,
      (by decide : ("/index.html" : String).data.length = 11),
      (by decide : ("404.html" : String).data.length = 8)] at hlen
    omega

/-- C9: a 404-named document is produced exactly when the configured default
redirect target is non-empty after trimming; when produced it is the last
output, built by the same renderer at the logical path of the 404 page with
the fixed Korean title and description defaults and the global fallback
image; and in the rendered page the escaped redirect target fills the
canonical, script-destination and noscript-href slots (the last three
interpolation slots of the template). -/
theorem C9_404 :
    (∀ (cfg : Config) (fetched : String → String → OG),
      ("404.html" ∈ (siteOutputs cfg fetched).map Prod.fst) ↔ trimSpace cfg.DefaultRedirect ≠ "") ∧
    (∀ (cfg : Config) (fetched : String → String → OG), trimSpace cfg.DefaultRedirect ≠ "" →
      (siteOutputs cfg fetched).getLast? =
        some ("404.html", buildHTML "/404" cfg.DefaultRedirect
          ⟨"UniGoods", "유니굿즈 숍으로 이동합니다.", cfg.GlobalOG⟩)) ∧
    (∀ cfg : Config,
      buildHTML "/404" cfg.DefaultRedirect ⟨"UniGoods", "유니굿즈 숍으로 이동합니다.", cfg.GlobalOG⟩ =
        seg0 ++ htmlEscapeString "UniGoods" ++ seg1 ++
        htmlEscapeString "유니굿즈 숍으로 이동합니다." ++ seg2 ++ htmlEscapeString "UniGoods" ++
        seg3 ++ htmlEscapeString "유니굿즈 숍으로 이동합니다." ++ seg4 ++
        htmlEscapeString cfg.GlobalOG ++ seg5 ++ htmlEscapeString "https://shop.unigoods.im/404" ++
        seg6 ++ htmlEscapeString cfg.DefaultRedirect ++ seg7 ++
        htmlEscapeString cfg.DefaultRedirect ++ seg8 ++ htmlEscapeString cfg.DefaultRedirect ++
        seg9) := by
  refine ⟨?_, ?_, fun cfg => rfl⟩
  · intro cfg fetched
    constructor
    · intro hmem
      unfold siteOutputs at hmem
      rw [List.map_append, List.mem_append] at hmem
      rcases hmem with h | h
      · rcases List.mem_map.mp h with ⟨pair, hpair, heq⟩
        rcases List.mem_map.mp hpair with ⟨pr, _, rfl⟩
        exact absurd heq (outName_ne_404 _)
      · by_cases ht : trimSpace cfg.DefaultRedirect ≠ ""
        · exact ht
        · rw [if_neg ht] at h
          simp at h
    · intro ht
      unfold siteOutputs
      rw [List.map_append, List.mem_append]
      right
      rw [if_pos ht]
      simp
  · intro cfg fetched ht
    unfold siteOutputs
    rw [if_pos ht]
    exact List.getLast?_concat _

theorem C9_404_witness :
    (siteOutputs ⟨"", "https://g.example/i.png", "https://unigoods.im", []⟩
        (fun _ _ => ⟨"", "", ""⟩)).getLast?
      = some ("404.html", buildHTML "/404" "https://unigoods.im"
          ⟨"UniGoods", "유니굿즈 숍으로 이동합니다.", "https://g.example/i.png"⟩) :=
  C9_404.2.1 ⟨"", "https://g.example/i.png", "https://unigoods.im", []⟩
    (fun _ _ => ⟨"", "", ""⟩) (by decide)

end Shop
